import Mathlib

/-!
Verification of the Student Management System (src/student.py) against its
natural-language specification.

The Python program is shallowly embedded: interactive prompts become explicit
arguments (a single string for a one-shot prompt, a list of strings for the
scripted responses consumed by a retry loop), the CSV layer is abstracted to
lists of fields (the delimited-text reader/writer is an external collaborator
per the spec and is assumed to round-trip fields), Python `int` values become
`Int`, and Python `float` values become `Rat` (every binary float denotes a
rational; arithmetic on the values occurring here is exact).  Functions that
can loop forever waiting for input return `Option`, with `none` meaning the
scripted responses were exhausted (the real program would keep prompting).
-/

/-! ### Python string primitives (ASCII fragment)

These model the Python `str` methods used by the program: `strip`, `lower`,
`upper`, substring containment (`in`), and the numeric conversions `int(...)`
and `float(...)`.  The model covers the ASCII fragment: unicode whitespace,
unicode digits and underscore digit separators are out of scope.
-/

/-- Whitespace characters removed by Python `str.strip()` (ASCII fragment). -/
def pyIsWS (c : Char) : Bool :=
  c == ' ' || c == '\t' || c == '\n' || c == '\r' || c == '\x0b' || c == '\x0c'

/-- Python `str.strip()`: drop leading and trailing whitespace. -/
def pyStrip (s : String) : String :=
  ⟨((s.toList.dropWhile pyIsWS).reverse.dropWhile pyIsWS).reverse⟩

/-- Lower-case one ASCII character (Python `str.lower()` on one char). -/
def lowChar (c : Char) : Char :=
  if 'A' ≤ c ∧ c ≤ 'Z' then Char.ofNat (c.toNat + 32) else c

/-- Upper-case one ASCII character (Python `str.upper()` on one char). -/
def upChar (c : Char) : Char :=
  if 'a' ≤ c ∧ c ≤ 'z' then Char.ofNat (c.toNat - 32) else c

/-- Python `str.lower()`. -/
def pyLower (s : String) : String := ⟨s.toList.map lowChar⟩

/-- Python `str.upper()`. -/
def pyUpper (s : String) : String := ⟨s.toList.map upChar⟩

/-- Does `needle` occur as a prefix of `hay`? (helper for substring search). -/
def startsW : List Char → List Char → Bool
  | [], _ => true
  | _ :: _, [] => false
  | c :: cs, h :: hs => (c == h) && startsW cs hs

/-- Python substring containment `needle in hay` on character lists. -/
def strFind : List Char → List Char → Bool
  | [], needle => startsW needle []
  | c :: t, needle => startsW needle (c :: t) || strFind t needle

/-- Numeric value of a decimal digit character. -/
def digVal (c : Char) : Nat := c.toNat - 48

/-- Value of a most-significant-first list of decimal digit characters. -/
def digitsVal (l : List Char) : Nat := l.foldl (fun a c => a * 10 + digVal c) 0

/-- Parse a nonempty all-digit character list; `none` otherwise. -/
def parseDigits (l : List Char) : Option Nat :=
  if l ≠ [] ∧ l.all Char.isDigit then some (digitsVal l) else none

/-- Sign-and-digits phase of Python `int(s)` (after stripping). -/
def pyIntList : List Char → Option Int
  | [] => none
  | c :: rest =>
    if c = '-' then (parseDigits rest).map (fun n => -(n : Int))
    else if c = '+' then (parseDigits rest).map (fun n => (n : Int))
    else (parseDigits (c :: rest)).map (fun n => (n : Int))

/-- Python `int(s)` on a string: strip whitespace, optional sign, decimal
digits.  Raising `ValueError` is modelled by `none`. -/
def pyInt (s : String) : Option Int := pyIntList (pyStrip s).toList

/-- Continuation of `parseDecimal` after the integer-part digits `ip` have
been taken: the rest must be empty, or a point followed by digits. -/
def parseDecimalRest (sgn : Int) (ip : List Char) : List Char → Option Rat
  | [] => if ip = [] then none else some (mkRat (sgn * digitsVal ip) 1)
  | c :: frac =>
    if c = '.' ∧ frac.all Char.isDigit ∧ (ip ≠ [] ∨ frac ≠ []) then
      some (mkRat (sgn * (digitsVal ip * 10 ^ frac.length + digitsVal frac)) (10 ^ frac.length))
    else none

/-- Parse the unsigned part of a Python `float` literal (`ddd`, `ddd.ddd`,
`ddd.`, `.ddd`), returning its exact rational value with the given sign.
Exponent notation, `inf` and `nan` are outside the model. -/
def parseDecimal (sgn : Int) (l : List Char) : Option Rat :=
  parseDecimalRest sgn (l.takeWhile Char.isDigit) (l.dropWhile Char.isDigit)

/-- Sign-and-literal phase of Python `float(s)` (after stripping). -/
def pyFloatList : List Char → Option Rat
  | [] => none
  | c :: rest =>
    if c = '-' then parseDecimal (-1) rest
    else if c = '+' then parseDecimal 1 rest
    else parseDecimal 1 (c :: rest)

/-- Python `float(s)`: strip whitespace, optional sign, decimal literal.
Raising `ValueError` is modelled by `none`; the float value is modelled by
its exact rational value. -/
def pyFloat (s : String) : Option Rat := pyFloatList (pyStrip s).toList

/-- Decimal digit character for a value below ten. -/
def digitChar (n : Nat) : Char := Char.ofNat (48 + n)

/-- Decimal digits of `n`, least significant first (empty for zero), by
structural recursion on a fuel bound (`n` itself always suffices). -/
def natDigitsAux : Nat → Nat → List Char
  | 0, _ => []
  | fuel + 1, n => if n = 0 then [] else digitChar (n % 10) :: natDigitsAux fuel (n / 10)

/-- Decimal digits of `n`, least significant first (empty for zero). -/
def natToDigitsRev (n : Nat) : List Char := natDigitsAux n n

/-- Decimal digits of `n`, most significant first (`['0']` for zero). -/
def natDigits (n : Nat) : List Char :=
  if n = 0 then ['0'] else (natToDigitsRev n).reverse

/-- Python `str(i)` for an `int` value. -/
def intStr (i : Int) : String :=
  if i < 0 then ⟨'-' :: natDigits i.natAbs⟩ else ⟨natDigits i.toNat⟩

/-- Smallest exponent `k` with `q.den ∣ 10 ^ k`, searched over a range that
always suffices for denominators of the form `2 ^ a * 5 ^ b`; `none` when the
denominator divides no power of ten (such a value is not a binary float, so
this case is unreachable for values the program can hold). -/
def decExp? (q : Rat) : Option Nat :=
  (List.range (q.den + 1)).find? (fun k => 10 ^ k % q.den == 0)

/-- Exactly `k` decimal digits of `m < 10 ^ k`, with leading zeros. -/
def fracDigits (m : Nat) : Nat → List Char
  | 0 => []
  | k + 1 => digitChar (m / 10 ^ k) :: fracDigits (m % 10 ^ k) k

/-- Python `str(f)` for a nonnegative float value `q`: integer part, point,
fraction digits (`"x.0"` for integral values).  The model prints the exact
decimal expansion; Python prints the shortest decimal string denoting the
same float, and both reparse to the same value. -/
def floatStrNN (q : Rat) : String :=
  match decExp? q with
  | none => "0.0"
  | some k =>
    let n := q.num.toNat * (10 ^ k / q.den)
    if k = 0 then ⟨natDigits n ++ ['.', '0']⟩
    else ⟨natDigits (n / 10 ^ k) ++ '.' :: fracDigits (n % 10 ^ k) k⟩

/-- Python `str(f)` for a float value. -/
def floatStr (q : Rat) : String :=
  if q < 0 then "-" ++ floatStrNN (-q) else floatStrNN q

/-- The rational `q` has a finite decimal expansion (true of every value a
binary float can hold with our search bound, in particular of every value
`pyFloat` produces). -/
def hasFiniteDec (q : Rat) : Bool := (decExp? q).isSome

/-! ### The data model and the program's operations (from src/student.py) -/

/-- One student record (`class Student`).  `age` is normalized through
`int(...)` and `gpa` through `float(...)` at construction; see
`student_init`. -/
structure Student where
  id : String
  name : String
  age : Int
  grade : String
  gpa : Rat
deriving DecidableEq, Repr

/-- `Student.__init__(student_id, name, age, grade, gpa)` called with the
values a `csv.DictReader` row supplies (`none` = the row was short, so the
field was filled with Python `None`).  `int(age)` and `float(gpa)` fall back
to `0` / `0.0` on `ValueError`; on `None` they raise `TypeError`, which the
constructor does not catch, so construction fails (`none`).  `id`, `name`
and `grade` are stored unconverted (when construction succeeds they are
always present, so the `getD` defaults never fire). -/
def student_init (sid nm ag gr gp : Option String) : Option Student :=
  match ag, gp with
  | some a, some g =>
    some { id := sid.getD "", name := nm.getD "", age := (pyInt a).getD 0,
           grade := gr.getD "", gpa := (pyFloat g).getD 0 }
  | _, _ => none

/-- One data line of the backing file, as the field list the CSV layer
yields, turned into a `Student` as in the body of `load_students`'s row
loop.  `row.get? i` models `row[FIELDNAMES[i]]` under `csv.DictReader`
(missing trailing fields become `None`).  The source's
`all(key in row for key in FIELDNAMES)` check is vacuously true (DictReader
fills missing keys), so it is not modelled; short rows are instead dropped
by the `TypeError` path inside `student_init`, matching the source. -/
def parse_row (row : List String) : Option Student :=
  student_init (row.get? 0) (row.get? 1) (row.get? 2) (row.get? 3) (row.get? 4)

/-- `load_students()`, applied to the data rows of the backing file (header
already consumed).  Rows whose construction raises are skipped with a
diagnostic; the function is total, modelling that loading never raises past
its boundary. -/
def load_students (rows : List (List String)) : List Student :=
  rows.filterMap parse_row

/-- `Student.to_dict` followed by `csv.DictWriter.writerow`: the field list
written for one student (`FIELDNAMES` order). -/
def to_row (s : Student) : List String :=
  [s.id, s.name, intStr s.age, s.grade, floatStr s.gpa]

/-- `save_students`, restricted to the data it writes: one row per student in
collection order (the header line is fixed). -/
def save_students (students : List Student) : List (List String) :=
  students.map to_row

/-- One iteration of the loop in `get_next_id`:
`max_id = max(max_id, int(student.id))`, with `ValueError` skipped. -/
def max_id_step (m : Int) (s : Student) : Int :=
  match pyInt s.id with
  | some k => max m k
  | none => m

/-- The running maximum in `get_next_id`: starts at `0`, takes `int(s.id)`
into account for each student, skipping ids that raise `ValueError`. -/
def max_id (students : List Student) : Int :=
  students.foldl max_id_step 0

/-- `get_next_id(students)`: `1001` on an empty collection, otherwise the
running maximum plus one. -/
def get_next_id (students : List Student) : Int :=
  if students = [] then 1001 else max_id students + 1

/-- `str(get_next_id(students))` as used by `add_new_student`. -/
def next_id_str (students : List Student) : String := intStr (get_next_id students)

/-- The age-entry retry loop in `add_new_student`: repeat until `int(...)`
succeeds with a positive value.  `none` = responses exhausted. -/
def age_loop_add : List String → Option Int
  | [] => none
  | r :: rs =>
    match pyInt r with
    | some a => if a ≤ 0 then age_loop_add rs else some a
    | none => age_loop_add rs

/-- The gpa-entry retry loop in `add_new_student`: repeat until `float(...)`
succeeds with a value in `[0.0, 4.0]`.  `none` = responses exhausted. -/
def gpa_loop_add : List String → Option Rat
  | [] => none
  | r :: rs =>
    match pyFloat r with
    | some g => if 0 ≤ g ∧ g ≤ 4 then some g else gpa_loop_add rs
    | none => gpa_loop_add rs

/-- `add_new_student(students)` with scripted inputs: the name response, the
age-loop responses, the grade response and the gpa-loop responses.  An empty
(stripped) name cancels the operation; otherwise the new record is appended
with the id allocated by `get_next_id` (computed, as in the source, before
any prompt). -/
def add_new_student (students : List Student) (nameI : String) (ageRs : List String)
    (gradeI : String) (gpaRs : List String) : Option (List Student) :=
  let sid := next_id_str students
  let name := pyStrip nameI
  if name = "" then some students
  else
    match age_loop_add ageRs with
    | none => none
    | some age =>
      match gpa_loop_add gpaRs with
      | none => none
      | some gpa =>
        some (students ++ [{ id := sid, name := name, age := age,
                             grade := pyStrip gradeI, gpa := gpa }])

/-- Outcome of `students_search` (which messages were printed). -/
inductive SearchResult
  | noQuery
  | found (results : List Student)
  | noneFound (query : String)
deriving DecidableEq, Repr

/-- The match condition of the search comprehension:
`query.lower() in s.id.lower() or query.lower() in s.name.lower()`. -/
def matchesQuery (q : String) (s : Student) : Bool :=
  strFind (pyLower s.id).toList (pyLower q).toList ||
  strFind (pyLower s.name).toList (pyLower q).toList

/-- `students_search(students)` with the raw prompt response `input`:
an empty stripped query returns immediately (no search, no message);
otherwise the matching records are listed, or a not-found message names the
query. -/
def students_search (students : List Student) (input : String) : SearchResult :=
  let q := pyStrip input
  if q = "" then SearchResult.noQuery
  else
    let found := students.filter (matchesQuery q)
    if found = [] then SearchResult.noneFound q else SearchResult.found found

/-- `next(s for s in students if s.id == student_id)`: the first record whose
id equals the target exactly (case-sensitively); `none` = `StopIteration`. -/
def find_student (sid : String) : List Student → Option Student
  | [] => none
  | s :: rest => if s.id = sid then some s else find_student sid rest

/-- `students.remove(target)`: remove the first element equal to the target.
(Python compares the objects; in the program the target is an element of the
list and no other element can equal it, so this is the same element.) -/
def remove_student (t : Student) : List Student → List Student
  | [] => []
  | s :: rest => if s = t then rest else s :: remove_student t rest

/-- In-place mutation of the found record: the collection with the first
record whose id matches replaced by the updated record. -/
def set_first_student (sid : String) (t : Student) : List Student → List Student
  | [] => []
  | s :: rest => if s.id = sid then t :: rest else s :: set_first_student sid t rest

/-- The age-update retry loop in `update_and_delete`: an empty (stripped)
response keeps the old value; a parseable positive value is accepted; other
responses repeat the prompt.  `none` = responses exhausted. -/
def age_loop_upd (old : Int) : List String → Option Int
  | [] => none
  | r :: rs =>
    let v := pyStrip r
    if v = "" then some old
    else
      match pyInt v with
      | some a => if 0 < a then some a else age_loop_upd old rs
      | none => age_loop_upd old rs

/-- The gpa-update retry loop in `update_and_delete`: an empty (stripped)
response keeps the old value; a parseable value in `[0.0, 4.0]` is accepted;
other responses repeat the prompt.  `none` = responses exhausted. -/
def gpa_loop_upd (old : Rat) : List String → Option Rat
  | [] => none
  | r :: rs =>
    let v := pyStrip r
    if v = "" then some old
    else
      match pyFloat v with
      | some g => if 0 ≤ g ∧ g ≤ 4 then some g else gpa_loop_upd old rs
      | none => gpa_loop_upd old rs

/-- The name-update statement: an empty (stripped) response keeps the old
name, a non-empty one overwrites it. -/
def upd_name (t : Student) (nameR : String) : Student :=
  if pyStrip nameR = "" then t else { t with name := pyStrip nameR }

/-- The grade-update statement: an empty (stripped) response keeps the old
grade, a non-empty one overwrites it. -/
def upd_grade (t : Student) (gradeR : String) : Student :=
  if pyStrip gradeR = "" then t else { t with grade := pyStrip gradeR }

/-- `student_to_modify.age = new_age` (in-place field assignment). -/
def set_age (t : Student) (a : Int) : Student := { t with age := a }

/-- `student_to_modify.gpa = new_gpa` (in-place field assignment). -/
def set_gpa (t : Student) (g : Rat) : Student := { t with gpa := g }

/-- The `U` branch of `update_and_delete`: update the found record field by
field.  Empty name/grade responses keep the old values; age and gpa go
through their retry loops.  `none` = a loop exhausted its responses (the
program would still be prompting; no final collection state exists). -/
def apply_update (t : Student) (nameR : String) (ageRs : List String)
    (gradeR : String) (gpaRs : List String) : Option Student :=
  let t1 := upd_name t nameR
  match age_loop_upd t1.age ageRs with
  | none => none
  | some age =>
    let t3 := upd_grade (set_age t1 age) gradeR
    match gpa_loop_upd t3.gpa gpaRs with
    | none => none
    | some gpa => some (set_gpa t3 gpa)

/-- Which terminal message `update_and_delete` printed. -/
inductive UDTag
  | notFound
  | deleted
  | updated
  | invalidAction
deriving DecidableEq, Repr

/-- `update_and_delete(students)` with scripted inputs: the id response, the
action response, and the update sub-prompt responses.  Returns the printed
outcome and the resulting collection; `none` = a numeric sub-prompt loop ran
out of responses. -/
def update_and_delete (students : List Student) (sidI actionI nameR : String)
    (ageRs : List String) (gradeR : String) (gpaRs : List String) :
    Option (UDTag × List Student) :=
  let sid := pyStrip sidI
  match find_student sid students with
  | none => some (UDTag.notFound, students)
  | some t =>
    let action := pyUpper (pyStrip actionI)
    if action = "D" then some (UDTag.deleted, remove_student t students)
    else if action = "U" then
      match apply_update t nameR ageRs gradeR gpaRs with
      | none => none
      | some t2 => some (UDTag.updated, set_first_student sid t2 students)
    else some (UDTag.invalidAction, students)

/-- `sum(s.gpa for s in students)`. -/
def total_gpa (students : List Student) : Rat := (students.map Student.gpa).sum

/-- `max(students, key=lambda s: s.gpa)`: fold keeping the current best,
replacing it only on a strictly greater gpa (so ties keep the earlier
record, as Python's `max` does). -/
def find_topper (s0 : Student) (rest : List Student) : Student :=
  rest.foldl (fun best x => if best.gpa < x.gpa then x else best) s0

/-- `calculate_avg_and_topper(students)`: `none` (a message, no computation)
on an empty collection; otherwise the reported count, average gpa and
topper. -/
def calculate_avg_and_topper (students : List Student) : Option (Nat × Rat × Student) :=
  match students with
  | [] => none
  | s0 :: rest =>
    some ((s0 :: rest).length,
          total_gpa (s0 :: rest) / ((s0 :: rest).length : Rat),
          find_topper s0 rest)

/-! ### Lemmas about the numeric string primitives -/

theorem digitChar_spec : ∀ r : Nat, r < 10 →
    (digitChar r).isDigit = true ∧ digVal (digitChar r) = r ∧ pyIsWS (digitChar r) = false ∧
    digitChar r ≠ '-' ∧ digitChar r ≠ '+' ∧ digitChar r ≠ '.' := by decide

theorem isDigit_not_special (c : Char) (h : c.isDigit = true) :
    c ≠ '-' ∧ c ≠ '+' ∧ c ≠ '.' ∧ pyIsWS c = false := by
  refine ⟨?_, ?_, ?_, ?_⟩
  · intro he; subst he; exact absurd h (by decide)
  · intro he; subst he; exact absurd h (by decide)
  · intro he; subst he; exact absurd h (by decide)
  · have h1 : '0' ≤ c ∧ c ≤ '9' := by
      have := h
      unfold Char.isDigit at this
      simp only [Bool.and_eq_true, decide_eq_true_eq] at this
      exact this
    have h2 : 48 ≤ c.toNat ∧ c.toNat ≤ 57 := by
      exact ⟨h1.1, h1.2⟩
    rw [Bool.eq_false_iff]
    intro hc
    unfold pyIsWS at hc
    simp only [Bool.or_eq_true, beq_iff_eq] at hc
    rcases hc with ((((hc | hc) | hc) | hc) | hc) | hc <;>
      (subst hc; exact absurd h2 (by decide))

theorem natDigitsAux_spec : ∀ fuel n : Nat, n ≤ fuel →
    (natDigitsAux fuel n).all Char.isDigit = true ∧
    (natDigitsAux fuel n).all (fun c => !pyIsWS c) = true ∧
    (n ≠ 0 → natDigitsAux fuel n ≠ []) ∧
    List.foldr (fun c a => a * 10 + digVal c) 0 (natDigitsAux fuel n) = n := by
  intro fuel
  induction fuel with
  | zero =>
    intro n hn
    have : n = 0 := Nat.le_zero.mp hn
    subst this
    exact ⟨rfl, rfl, fun h => absurd rfl h, rfl⟩
  | succ fuel ih =>
    intro n hn
    by_cases h0 : n = 0
    · subst h0
      simp [natDigitsAux]
    · have hlt : n / 10 < n := Nat.div_lt_self (Nat.pos_of_ne_zero h0) (by decide)
      have hle : n / 10 ≤ fuel := by omega
      obtain ⟨ihd, ihw, _, ihv⟩ := ih (n / 10) hle
      have hm : n % 10 < 10 := Nat.mod_lt _ (by decide)
      obtain ⟨hd1, hd2, hd3, _⟩ := digitChar_spec (n % 10) hm
      have heq : natDigitsAux (fuel + 1) n = digitChar (n % 10) :: natDigitsAux fuel (n / 10) := by
        simp [natDigitsAux, h0]
      rw [heq]
      refine ⟨?_, ?_, ?_, ?_⟩
      · simp [List.all_cons, hd1, ihd]
      · simp [List.all_cons, hd3, ihw]
      · intro _; simp
      · simp only [List.foldr_cons, ihv, hd2]
        omega

theorem natDigits_all_digit (n : Nat) : (natDigits n).all Char.isDigit = true := by
  by_cases h : n = 0
  · subst h; decide
  · unfold natDigits
    simp only [h, if_false, natToDigitsRev, List.all_reverse]
    exact (natDigitsAux_spec n n le_rfl).1

theorem natDigits_no_ws (n : Nat) : (natDigits n).all (fun c => !pyIsWS c) = true := by
  by_cases h : n = 0
  · subst h; decide
  · unfold natDigits
    simp only [h, if_false, natToDigitsRev, List.all_reverse]
    exact (natDigitsAux_spec n n le_rfl).2.1

theorem natDigits_ne_nil (n : Nat) : natDigits n ≠ [] := by
  by_cases h : n = 0
  · subst h; decide
  · unfold natDigits
    simp only [h, if_false, natToDigitsRev]
    intro hc
    exact ((natDigitsAux_spec n n le_rfl).2.2.1 h) (by
      have := congrArg List.reverse hc
      simpa using this)

theorem digitsVal_natDigits (n : Nat) : digitsVal (natDigits n) = n := by
  by_cases h : n = 0
  · subst h; decide
  · unfold natDigits
    simp only [h, if_false, natToDigitsRev]
    unfold digitsVal
    rw [List.foldl_reverse]
    exact (natDigitsAux_spec n n le_rfl).2.2.2

theorem parseDigits_natDigits (n : Nat) : parseDigits (natDigits n) = some n := by
  unfold parseDigits
  simp [natDigits_ne_nil, natDigits_all_digit, digitsVal_natDigits]

theorem dropWhile_eq_self_of_not {l : List Char} {p : Char → Bool}
    (h : ∀ c ∈ l, p c = false) : l.dropWhile p = l := by
  cases l with
  | nil => rfl
  | cons c t => simp [List.dropWhile_cons, h c (by simp)]

theorem pyStrip_no_ws {l : List Char} (h : ∀ c ∈ l, pyIsWS c = false) :
    pyStrip ⟨l⟩ = ⟨l⟩ := by
  unfold pyStrip
  have h1 : (String.mk l).toList = l := rfl
  rw [h1, dropWhile_eq_self_of_not h, dropWhile_eq_self_of_not (by simpa using h),
    List.reverse_reverse]

theorem pyInt_intStr (i : Int) : pyInt (intStr i) = some i := by
  unfold intStr
  by_cases hneg : i < 0
  · simp only [hneg, if_true]
    unfold pyInt
    have hstrip : pyStrip ⟨'-' :: natDigits i.natAbs⟩ = ⟨'-' :: natDigits i.natAbs⟩ := by
      apply pyStrip_no_ws
      intro c hc
      rcases List.mem_cons.mp hc with h | h
      · subst h; decide
      · have := natDigits_no_ws i.natAbs
        rw [List.all_eq_true] at this
        simpa using this c h
    rw [hstrip]
    show pyIntList ('-' :: natDigits i.natAbs) = some i
    rw [show pyIntList ('-' :: natDigits i.natAbs)
        = (parseDigits (natDigits i.natAbs)).map (fun n => -(n : Int)) from rfl,
      parseDigits_natDigits]
    show some (-(i.natAbs : Int)) = some i
    exact congrArg some (by omega)
  · simp only [hneg, if_false]
    unfold pyInt
    have hstrip : pyStrip ⟨natDigits i.toNat⟩ = ⟨natDigits i.toNat⟩ := by
      apply pyStrip_no_ws
      intro c hc
      have := natDigits_no_ws i.toNat
      rw [List.all_eq_true] at this
      simpa using this c hc
    rw [hstrip]
    show pyIntList (natDigits i.toNat) = some i
    obtain ⟨c, t, hct⟩ : ∃ c t, natDigits i.toNat = c :: t := by
      cases h : natDigits i.toNat with
      | nil => exact absurd h (natDigits_ne_nil _)
      | cons c t => exact ⟨c, t, rfl⟩
    have hcd : c.isDigit = true := by
      have := natDigits_all_digit i.toNat
      rw [hct, List.all_cons, Bool.and_eq_true] at this
      exact this.1
    obtain ⟨hm, hp, _, _⟩ := isDigit_not_special c hcd
    rw [hct]
    rw [show pyIntList (c :: t)
        = (if c = '-' then (parseDigits t).map (fun n => -(n : Int))
          else if c = '+' then (parseDigits t).map (fun n => (n : Int))
          else (parseDigits (c :: t)).map (fun n => (n : Int))) from rfl]
    rw [if_neg hm, if_neg hp, ← hct, parseDigits_natDigits]
    show some ((i.toNat : Int)) = some i
    exact congrArg some (by omega)

example : pyInt " -42 " = some (-42) := by decide
example : pyInt "10x" = none := by decide
example : pyFloat "3.5" = some (mkRat 7 2) := by decide
example : pyFloat ".5" = some (mkRat 1 2) := by decide
example : pyFloat "5." = some (mkRat 5 1) := by decide
example : pyFloat "." = none := by decide
example : pyFloat "-0.25" = some (mkRat (-1) 4) := by decide
example : intStr (-42) = "-42" := by decide
example : intStr 1001 = "1001" := by decide
example : floatStr (mkRat 7 2) = "3.5" := by decide
example : floatStr (mkRat 3 1) = "3.0" := by decide
example : floatStr (mkRat (-1) 4) = "-0.25" := by decide
example : floatStr (mkRat 401 100) = "4.01" := by decide
example : strFind "hello".toList "ell".toList = true := by decide
example : strFind "hello".toList "elo".toList = false := by decide
example : pyUpper (pyStrip "  d ") = "D" := by decide
example : get_next_id [] = 1001 := by decide
example : parse_row ["1001", "A", "x", "g", "3.5"] =
    some ⟨"1001", "A", 0, "g", mkRat 7 2⟩ := by decide
example : parse_row ["1001", "A", "20", "g"] = none := by decide

/-! ### Lemmas about id allocation (`get_next_id`) -/

theorem max_id_step_le (m : Int) (s : Student) : m ≤ max_id_step m s := by
  unfold max_id_step
  cases pyInt s.id with
  | none => exact le_rfl
  | some k => exact le_max_left m k

theorem foldl_max_id_le : ∀ (l : List Student) (a : Int), a ≤ l.foldl max_id_step a := by
  intro l
  induction l with
  | nil => intro a; exact le_rfl
  | cons s t ih =>
    intro a
    calc a ≤ max_id_step a s := max_id_step_le a s
      _ ≤ (s :: t).foldl max_id_step a := ih (max_id_step a s)

theorem foldl_max_id_bound : ∀ (l : List Student) (a : Int) (s : Student), s ∈ l →
    ∀ k : Int, pyInt s.id = some k → k ≤ l.foldl max_id_step a := by
  intro l
  induction l with
  | nil => intro a s hs; exact absurd hs (List.not_mem_nil s)
  | cons s0 t ih =>
    intro a s hs k hk
    rcases List.mem_cons.mp hs with h | h
    · subst h
      have h1 : k ≤ max_id_step a s := by
        unfold max_id_step
        rw [hk]
        exact le_max_right a k
      calc k ≤ max_id_step a s := h1
        _ ≤ t.foldl max_id_step (max_id_step a s) := foldl_max_id_le t _
    · exact ih (max_id_step a s0) s h k hk

theorem foldl_max_id_cases : ∀ (l : List Student) (a : Int),
    l.foldl max_id_step a = a ∨ ∃ s ∈ l, pyInt s.id = some (l.foldl max_id_step a) := by
  intro l
  induction l with
  | nil => intro a; exact Or.inl rfl
  | cons s0 t ih =>
    intro a
    have hfold : (s0 :: t).foldl max_id_step a = t.foldl max_id_step (max_id_step a s0) := rfl
    rcases ih (max_id_step a s0) with h | ⟨s, hs, hp⟩
    · rw [hfold, h]
      cases hid : pyInt s0.id with
      | none =>
        have hstep : max_id_step a s0 = a := by
          unfold max_id_step
          rw [hid]
        rw [hstep]
        exact Or.inl rfl
      | some k =>
        have hstep : max_id_step a s0 = max a k := by
          unfold max_id_step
          rw [hid]
        rw [hstep]
        rcases le_total k a with hka | hak
        · rw [max_eq_left hka]
          exact Or.inl rfl
        · refine Or.inr ⟨s0, List.mem_cons_self s0 t, ?_⟩
          rw [hid, max_eq_right hak]
    · exact Or.inr ⟨s, List.mem_cons_of_mem s0 hs, hp⟩

theorem foldl_max_id_none : ∀ (l : List Student), (∀ s ∈ l, pyInt s.id = none) →
    ∀ a : Int, l.foldl max_id_step a = a := by
  intro l
  induction l with
  | nil => intro _ a; rfl
  | cons s0 t ih =>
    intro h a
    have h0 : max_id_step a s0 = a := by
      unfold max_id_step
      rw [h s0 (List.mem_cons_self s0 t)]
    show t.foldl max_id_step (max_id_step a s0) = a
    rw [h0]
    exact ih (fun s hs => h s (List.mem_cons_of_mem s0 hs)) a

theorem max_id_nonneg (l : List Student) : 0 ≤ max_id l := foldl_max_id_le l 0

theorem max_id_bound (l : List Student) (s : Student) (hs : s ∈ l) (k : Int)
    (hk : pyInt s.id = some k) : k ≤ max_id l := foldl_max_id_bound l 0 s hs k hk

theorem max_id_cases (l : List Student) :
    max_id l = 0 ∨ ∃ s ∈ l, pyInt s.id = some (max_id l) := foldl_max_id_cases l 0

theorem next_id_fresh (students : List Student) :
    next_id_str students ∉ students.map Student.id := by
  intro hmem
  rcases List.mem_map.mp hmem with ⟨s, hs, hid⟩
  by_cases hnil : students = []
  · subst hnil
    exact absurd hs (List.not_mem_nil s)
  · have hparse : pyInt s.id = some (get_next_id students) := by
      rw [hid]
      exact pyInt_intStr (get_next_id students)
    have hle : get_next_id students ≤ max_id students :=
      max_id_bound students s hs _ hparse
    have hgn : get_next_id students = max_id students + 1 := by
      unfold get_next_id
      rw [if_neg hnil]
    omega

/-! ### Lemmas about find / remove / in-place update -/

theorem find_student_none (sid : String) : ∀ l : List Student,
    find_student sid l = none ↔ ∀ s ∈ l, s.id ≠ sid := by
  intro l
  induction l with
  | nil => simp [find_student]
  | cons s0 t ih =>
    unfold find_student
    by_cases h : s0.id = sid
    · simp only [if_pos h]
      constructor
      · intro hc; exact absurd hc (by simp)
      · intro hall; exact absurd h (hall s0 (List.mem_cons_self s0 t))
    · simp only [if_neg h]
      rw [ih]
      constructor
      · intro hall s hs
        rcases List.mem_cons.mp hs with he | he
        · subst he; exact h
        · exact hall s he
      · intro hall s hs
        exact hall s (List.mem_cons_of_mem s0 hs)

theorem find_student_some (sid : String) : ∀ (l : List Student) (t : Student),
    find_student sid l = some t →
    ∃ l1 l2, l = l1 ++ t :: l2 ∧ t.id = sid ∧ ∀ y ∈ l1, y.id ≠ sid := by
  intro l
  induction l with
  | nil => intro t h; exact absurd h (by simp [find_student])
  | cons s0 rest ih =>
    intro t h
    unfold find_student at h
    by_cases h0 : s0.id = sid
    · rw [if_pos h0] at h
      have : s0 = t := by injection h
      subst this
      exact ⟨[], rest, rfl, h0, by simp⟩
    · rw [if_neg h0] at h
      obtain ⟨l1, l2, heq, hid, hall⟩ := ih t h
      refine ⟨s0 :: l1, l2, by rw [List.cons_append, heq], hid, ?_⟩
      intro y hy
      rcases List.mem_cons.mp hy with he | he
      · subst he; exact h0
      · exact hall y he

theorem remove_student_found (t : Student) : ∀ (l1 l2 : List Student),
    (∀ y ∈ l1, y ≠ t) → remove_student t (l1 ++ t :: l2) = l1 ++ l2 := by
  intro l1
  induction l1 with
  | nil =>
    intro l2 _
    show remove_student t (t :: l2) = l2
    unfold remove_student
    rw [if_pos rfl]
  | cons a l1' ih =>
    intro l2 hne
    show remove_student t (a :: (l1' ++ t :: l2)) = a :: (l1' ++ l2)
    unfold remove_student
    rw [if_neg (hne a (List.mem_cons_self a l1'))]
    rw [ih l2 (fun y hy => hne y (List.mem_cons_of_mem a hy))]

theorem remove_student_sublist (t : Student) : ∀ l : List Student,
    (remove_student t l).Sublist l := by
  intro l
  induction l with
  | nil => exact List.Sublist.refl []
  | cons s0 rest ih =>
    unfold remove_student
    by_cases h : s0 = t
    · rw [if_pos h]
      exact (List.sublist_cons_self s0 rest)
    · rw [if_neg h]
      exact List.Sublist.cons₂ s0 ih

theorem set_first_student_self (sid : String) : ∀ (l : List Student) (t : Student),
    find_student sid l = some t → set_first_student sid t l = l := by
  intro l
  induction l with
  | nil => intro t h; exact absurd h (by simp [find_student])
  | cons s0 rest ih =>
    intro t h
    unfold find_student at h
    unfold set_first_student
    by_cases h0 : s0.id = sid
    · rw [if_pos h0] at h
      have : s0 = t := by injection h
      subst this
      rw [if_pos h0]
    · rw [if_neg h0] at h
      rw [if_neg h0, ih t h]

theorem set_first_student_map_id (sid : String) (t : Student) (ht : t.id = sid) :
    ∀ l : List Student, (set_first_student sid t l).map Student.id = l.map Student.id := by
  intro l
  induction l with
  | nil => rfl
  | cons s0 rest ih =>
    unfold set_first_student
    by_cases h0 : s0.id = sid
    · rw [if_pos h0]
      show t.id :: rest.map Student.id = s0.id :: rest.map Student.id
      rw [ht, h0]
    · rw [if_neg h0]
      show s0.id :: (set_first_student sid t rest).map Student.id
        = s0.id :: rest.map Student.id
      rw [ih]

theorem upd_id_helper_name (t : Student) (nameR : String) : (upd_name t nameR).id = t.id := by
  unfold upd_name
  split <;> rfl

theorem upd_id_helper_grade (t : Student) (gradeR : String) : (upd_grade t gradeR).id = t.id := by
  unfold upd_grade
  split <;> rfl

theorem upd_id_helper_age (t : Student) (a : Int) : (set_age t a).id = t.id := rfl

theorem upd_id_helper_gpa (t : Student) (g : Rat) : (set_gpa t g).id = t.id := rfl

theorem apply_update_id (t : Student) (nameR : String) (ageRs : List String)
    (gradeR : String) (gpaRs : List String) (t2 : Student)
    (h : apply_update t nameR ageRs gradeR gpaRs = some t2) : t2.id = t.id := by
  simp only [apply_update] at h
  cases hA : age_loop_upd (upd_name t nameR).age ageRs with
  | none =>
    rw [hA] at h
    exact absurd h (by simp)
  | some age =>
    rw [hA] at h
    have h2 : (match gpa_loop_upd (upd_grade (set_age (upd_name t nameR) age) gradeR).gpa gpaRs with
      | none => none
      | some gpa => some (set_gpa (upd_grade (set_age (upd_name t nameR) age) gradeR) gpa))
        = some t2 := h
    cases hG : gpa_loop_upd (upd_grade (set_age (upd_name t nameR) age) gradeR).gpa gpaRs with
    | none =>
      rw [hG] at h2
      exact absurd h2 (by simp)
    | some gpa =>
      rw [hG] at h2
      injection h2 with h3
      subst h3
      rw [upd_id_helper_gpa, upd_id_helper_grade, upd_id_helper_age, upd_id_helper_name]

/-! ### Lemmas about the topper fold and substring search -/

theorem find_topper_spec : ∀ (rest : List Student) (s0 : Student),
    ∃ l1 l2, s0 :: rest = l1 ++ find_topper s0 rest :: l2 ∧
      (∀ y ∈ l1, y.gpa < (find_topper s0 rest).gpa) ∧
      (∀ x ∈ s0 :: rest, x.gpa ≤ (find_topper s0 rest).gpa) := by
  intro rest
  induction rest with
  | nil =>
    intro s0
    refine ⟨[], [], rfl, ?_, ?_⟩
    · intro y hy
      exact absurd hy (List.not_mem_nil y)
    · intro x hx
      rcases List.mem_cons.mp hx with h | h
      · subst h; exact le_rfl
      · exact absurd h (List.not_mem_nil x)
  | cons x rs ih =>
    intro s0
    by_cases hc : s0.gpa < x.gpa
    · have ht : find_topper s0 (x :: rs) = find_topper x rs := by
        show find_topper (if s0.gpa < x.gpa then x else s0) rs = find_topper x rs
        rw [if_pos hc]
      obtain ⟨l1, l2, heq, hlt, hle⟩ := ih x
      rw [ht]
      have hxt : x.gpa ≤ (find_topper x rs).gpa := hle x (List.mem_cons_self x rs)
      refine ⟨s0 :: l1, l2, ?_, ?_, ?_⟩
      · rw [List.cons_append, ← heq]
      · intro y hy
        rcases List.mem_cons.mp hy with h | h
        · subst h
          exact lt_of_lt_of_le hc hxt
        · exact hlt y h
      · intro z hz
        rcases List.mem_cons.mp hz with h | h
        · subst h
          exact le_of_lt (lt_of_lt_of_le hc hxt)
        · exact hle z h
    · have ht : find_topper s0 (x :: rs) = find_topper s0 rs := by
        show find_topper (if s0.gpa < x.gpa then x else s0) rs = find_topper s0 rs
        rw [if_neg hc]
      have hxle : x.gpa ≤ s0.gpa := le_of_not_lt hc
      obtain ⟨l1, l2, heq, hlt, hle⟩ := ih s0
      rw [ht]
      cases l1 with
      | nil =>
        rw [List.nil_append] at heq
        have h1 : s0 = find_topper s0 rs := by
          injection heq
        refine ⟨[], x :: rs, ?_, ?_, ?_⟩
        · rw [List.nil_append, ← h1]
        · intro y hy
          exact absurd hy (List.not_mem_nil y)
        · intro z hz
          rcases List.mem_cons.mp hz with h | h
          · subst h
            rw [← h1]
          · rcases List.mem_cons.mp h with h2 | h2
            · subst h2
              rw [← h1]
              exact hxle
            · exact hle z (List.mem_cons_of_mem s0 h2)
      | cons a l1' =>
        rw [List.cons_append] at heq
        have ha1 : s0 = a := by injection heq
        have ha2 : rs = l1' ++ find_topper s0 rs :: l2 := by injection heq
        have hs0lt : s0.gpa < (find_topper s0 rs).gpa := by
          have halt := hlt a (List.mem_cons_self a l1')
          rw [← ha1] at halt
          exact halt
        refine ⟨s0 :: x :: l1', l2, ?_, ?_, ?_⟩
        · rw [List.cons_append, List.cons_append, ← ha2]
        · intro y hy
          rcases List.mem_cons.mp hy with h | h
          · subst h
            exact hs0lt
          · rcases List.mem_cons.mp h with h2 | h2
            · subst h2
              exact lt_of_le_of_lt hxle hs0lt
            · exact hlt y (List.mem_cons_of_mem a h2)
        · intro z hz
          rcases List.mem_cons.mp hz with h | h
          · subst h
            exact hle _ (List.mem_cons_self _ rs)
          · rcases List.mem_cons.mp h with h2 | h2
            · subst h2
              exact le_trans hxle (hle _ (List.mem_cons_self _ rs))
            · exact hle z (List.mem_cons_of_mem _ h2)

theorem startsW_iff : ∀ (n h : List Char), startsW n h = true ↔ n <+: h := by
  intro n
  induction n with
  | nil =>
    intro h
    simp [startsW, List.nil_prefix]
  | cons c cs ih =>
    intro h
    cases h with
    | nil =>
      show startsW (c :: cs) [] = true ↔ c :: cs <+: []
      simp [startsW, List.prefix_nil]
    | cons d hs =>
      show ((c == d) && startsW cs hs) = true ↔ c :: cs <+: d :: hs
      rw [Bool.and_eq_true, beq_iff_eq, ih hs, List.cons_prefix_cons]

theorem strFind_iff : ∀ (h n : List Char), strFind h n = true ↔ n <:+: h := by
  intro h
  induction h with
  | nil =>
    intro n
    show startsW n [] = true ↔ n <:+: []
    rw [startsW_iff, List.infix_nil, List.prefix_nil]
  | cons c t ih =>
    intro n
    show (startsW n (c :: t) || strFind t n) = true ↔ n <:+: c :: t
    rw [Bool.or_eq_true, startsW_iff, ih, List.infix_cons_iff]

/-! ### Lemmas about loading -/

theorem parse_row_id : ∀ (row : List String) (s : Student), parse_row row = some s →
    row.get? 0 = some s.id := by
  intro row s h
  unfold parse_row student_init at h
  cases h2 : row.get? 2 with
  | none =>
    rw [h2] at h
    cases row.get? 4 <;> exact absurd h (by simp)
  | some a =>
    rw [h2] at h
    cases h4 : row.get? 4 with
    | none =>
      rw [h4] at h
      exact absurd h (by simp)
    | some g =>
      rw [h4] at h
      have hlen : 4 < row.length := by
        by_contra hc
        rw [List.get?_eq_none.mpr (by omega)] at h4
        exact absurd h4 (by simp)
      have h0 : row.get? 0 = some (row.get ⟨0, by omega⟩) :=
        List.get?_eq_get (by omega)
      injection h with hs
      have hid : s.id = (row.get? 0).getD "" := by rw [← hs]
      rw [hid, h0, Option.getD_some]

theorem load_ids_sublist : ∀ rows : List (List String),
    ((load_students rows).map Student.id).Sublist
      (rows.filterMap (fun r => r.get? 0)) := by
  intro rows
  induction rows with
  | nil => exact List.Sublist.refl []
  | cons r rest ih =>
    cases hp : parse_row r with
    | none =>
      rw [show load_students (r :: rest) = load_students rest from by
        unfold load_students
        rw [List.filterMap_cons, hp]]
      cases h0 : r.get? 0 with
      | none =>
        rw [show (r :: rest).filterMap (fun r => r.get? 0)
            = rest.filterMap (fun r => r.get? 0) from by
          rw [List.filterMap_cons, h0]]
        exact ih
      | some f0 =>
        rw [show (r :: rest).filterMap (fun r => r.get? 0)
            = f0 :: rest.filterMap (fun r => r.get? 0) from by
          rw [List.filterMap_cons, h0]]
        exact ih.cons f0
    | some s =>
      have r0 : r.get? 0 = some s.id := parse_row_id r s hp
      rw [show load_students (r :: rest) = s :: load_students rest from by
        unfold load_students
        rw [List.filterMap_cons, hp]]
      rw [show (r :: rest).filterMap (fun r => r.get? 0)
          = s.id :: rest.filterMap (fun r => r.get? 0) from by
        rw [List.filterMap_cons, r0]]
      rw [List.map_cons]
      exact ih.cons₂ s.id

/-! ### Round trip of the storage format -/

theorem digitsVal_from : ∀ (l : List Char) (a : Nat),
    l.foldl (fun a c => a * 10 + digVal c) a
      = a * 10 ^ l.length + l.foldl (fun a c => a * 10 + digVal c) 0 := by
  intro l
  induction l with
  | nil =>
    intro a
    simp
  | cons c t ih =>
    intro a
    rw [List.foldl_cons, List.foldl_cons, ih (a * 10 + digVal c), ih (0 * 10 + digVal c),
      List.length_cons]
    ring

theorem digitsVal_cons (c : Char) (t : List Char) :
    digitsVal (c :: t) = digVal c * 10 ^ t.length + digitsVal t := by
  unfold digitsVal
  rw [List.foldl_cons, digitsVal_from t (0 * 10 + digVal c)]
  ring

theorem fracDigits_spec : ∀ (k m : Nat), m < 10 ^ k →
    (fracDigits m k).length = k ∧ (fracDigits m k).all Char.isDigit = true ∧
    (fracDigits m k).all (fun c => !pyIsWS c) = true ∧
    digitsVal (fracDigits m k) = m := by
  intro k
  induction k with
  | zero =>
    intro m hm
    have hm0 : m = 0 := by
      have : (10 : Nat) ^ 0 = 1 := rfl
      omega
    subst hm0
    exact ⟨rfl, rfl, rfl, rfl⟩
  | succ k ih =>
    intro m hm
    have h10k : 0 < 10 ^ k := pow_pos (by norm_num) k
    have hdiv : m / 10 ^ k < 10 := by
      rw [Nat.div_lt_iff_lt_mul h10k]
      rw [pow_succ] at hm
      omega
    have hmod : m % 10 ^ k < 10 ^ k := Nat.mod_lt _ h10k
    obtain ⟨ihl, ihd, ihw, ihv⟩ := ih (m % 10 ^ k) hmod
    obtain ⟨hd1, hd2, hd3, _⟩ := digitChar_spec (m / 10 ^ k) hdiv
    have hshape : fracDigits m (k + 1)
        = digitChar (m / 10 ^ k) :: fracDigits (m % 10 ^ k) k := rfl
    rw [hshape]
    refine ⟨by simp [ihl], by simp [List.all_cons, hd1, ihd],
      by simp [List.all_cons, hd3, ihw], ?_⟩
    rw [digitsVal_cons, ihl, ihv, hd2]
    calc m / 10 ^ k * 10 ^ k + m % 10 ^ k
        = 10 ^ k * (m / 10 ^ k) + m % 10 ^ k := by ring
      _ = m := Nat.div_add_mod m (10 ^ k)

theorem takeWhile_append_not {p : Char → Bool} : ∀ (l1 : List Char) (c : Char) (l2 : List Char),
    (∀ x ∈ l1, p x = true) → p c = false →
    (l1 ++ c :: l2).takeWhile p = l1 ∧ (l1 ++ c :: l2).dropWhile p = c :: l2 := by
  intro l1
  induction l1 with
  | nil =>
    intro c l2 _ hc
    constructor
    · show (c :: l2).takeWhile p = []
      simp [List.takeWhile_cons, hc]
    · show (c :: l2).dropWhile p = c :: l2
      simp [List.dropWhile_cons, hc]
  | cons a t ih =>
    intro c l2 hall hc
    have ha : p a = true := hall a (List.mem_cons_self a t)
    obtain ⟨h1, h2⟩ := ih c l2 (fun x hx => hall x (List.mem_cons_of_mem a hx)) hc
    constructor
    · show ((a :: (t ++ c :: l2)).takeWhile p) = a :: t
      simp [List.takeWhile_cons, ha, h1]
    · show ((a :: (t ++ c :: l2)).dropWhile p) = c :: l2
      simp [List.dropWhile_cons, ha, h2]

theorem parseDecimal_digits (sgn : Int) (ipl : List Char) (m k : Nat)
    (hip : ipl.all Char.isDigit = true) (hipne : ipl ≠ []) (hm : m < 10 ^ k) :
    parseDecimal sgn (ipl ++ '.' :: fracDigits m k)
      = some (mkRat (sgn * (digitsVal ipl * 10 ^ k + m)) (10 ^ k)) := by
  obtain ⟨hfl, hfd, _, hfv⟩ := fracDigits_spec k m hm
  have hdot : ('.' : Char).isDigit = false := by decide
  obtain ⟨htake, hdrop⟩ := takeWhile_append_not ipl '.' (fracDigits m k)
    (fun x hx => by rw [List.all_eq_true] at hip; exact hip x hx) hdot
  unfold parseDecimal
  rw [htake, hdrop]
  show parseDecimalRest sgn ipl ('.' :: fracDigits m k)
    = some (mkRat (sgn * (digitsVal ipl * 10 ^ k + m)) (10 ^ k))
  rw [show parseDecimalRest sgn ipl ('.' :: fracDigits m k)
      = if ('.' : Char) = '.' ∧ (fracDigits m k).all Char.isDigit = true ∧
          (ipl ≠ [] ∨ fracDigits m k ≠ []) then
          some (mkRat (sgn * (digitsVal ipl * 10 ^ (fracDigits m k).length
            + digitsVal (fracDigits m k))) (10 ^ (fracDigits m k).length))
        else none from rfl]
  rw [if_pos ⟨rfl, hfd, Or.inl hipne⟩]
  rw [hfl, hfv]

theorem mkRat_neg (a : Int) (b : Nat) : mkRat (-a) b = -(mkRat a b) := by
  rw [Rat.mkRat_eq_div, Rat.mkRat_eq_div]
  push_cast
  ring

theorem floatStrNN_shape (q : Rat) (hq : 0 ≤ q) (k : Nat) (hk : decExp? q = some k) :
    ∃ a m k', m < 10 ^ k' ∧
      (floatStrNN q).toList = natDigits a ++ '.' :: fracDigits m k' ∧
      mkRat ((a * 10 ^ k' + m : Nat) : Int) (10 ^ k') = q := by
  have hdvd : q.den ∣ 10 ^ k := by
    have hfind := List.find?_some hk
    simp only [beq_iff_eq] at hfind
    exact Nat.dvd_of_mod_eq_zero hfind
  have hden0 : ((q.den : Nat) : Rat) ≠ 0 := by
    exact_mod_cast q.den_nz
  have h10 : ((10 : Rat)) ^ k ≠ 0 := by positivity
  have hnum : ((q.num.toNat : Nat) : Rat) = (q.num : Rat) := by
    exact_mod_cast congrArg (Int.cast : Int → Rat) (Int.toNat_of_nonneg (Rat.num_nonneg.mpr hq))
  have hcastdiv : ((10 ^ k / q.den : Nat) : Rat) = (10 : Rat) ^ k / (q.den : Rat) := by
    rw [Nat.cast_div hdvd hden0]
    push_cast
    ring
  have hbase : ((q.num.toNat * (10 ^ k / q.den) : Nat) : Rat) = q * 10 ^ k := by
    rw [Nat.cast_mul, hcastdiv, hnum]
    calc (q.num : Rat) * ((10 : Rat) ^ k / (q.den : Rat))
        = ((q.num : Rat) / (q.den : Rat)) * 10 ^ k := by ring
      _ = q * 10 ^ k := by rw [Rat.num_div_den]
  by_cases hk0 : k = 0
  · subst hk0
    set nn : Nat := q.num.toNat * (10 ^ 0 / q.den) with hnn
    refine ⟨nn, 0, 1, by norm_num, ?_, ?_⟩
    · unfold floatStrNN
      rw [hk]
      show (String.mk (natDigits nn ++ ['.', '0'])).toList
        = natDigits nn ++ '.' :: fracDigits 0 1
      rfl
    · have hq1 : ((nn : Nat) : Rat) = q := by
        rw [hbase]
        norm_num
      rw [Rat.mkRat_eq_div]
      push_cast
      rw [hq1]
      norm_num
  · have h10k : 0 < 10 ^ k := pow_pos (by norm_num) k
    set nn : Nat := q.num.toNat * (10 ^ k / q.den) with hnn
    refine ⟨nn / 10 ^ k, nn % 10 ^ k, k, Nat.mod_lt _ h10k, ?_, ?_⟩
    · unfold floatStrNN
      rw [hk]
      show (if k = 0 then String.mk (natDigits nn ++ ['.', '0'])
        else String.mk (natDigits (nn / 10 ^ k)
          ++ '.' :: fracDigits (nn % 10 ^ k) k)).toList
        = natDigits (nn / 10 ^ k) ++ '.' :: fracDigits (nn % 10 ^ k) k
      rw [if_neg hk0]
      rfl
    · have hsplit : nn / 10 ^ k * 10 ^ k + nn % 10 ^ k = nn := by
        calc nn / 10 ^ k * 10 ^ k + nn % 10 ^ k
            = 10 ^ k * (nn / 10 ^ k) + nn % 10 ^ k := by ring
          _ = nn := Nat.div_add_mod nn (10 ^ k)
      rw [hsplit, Rat.mkRat_eq_div]
      push_cast
      rw [hbase]
      field_simp

theorem floatStrNN_facts (q : Rat) (hq : 0 ≤ q) (hfd : hasFiniteDec q = true) :
    parseDecimal 1 (floatStrNN q).toList = some q ∧
    parseDecimal (-1) (floatStrNN q).toList = some (-q) ∧
    (∀ c ∈ (floatStrNN q).toList, pyIsWS c = false) ∧
    (∃ c rest, (floatStrNN q).toList = c :: rest ∧ c.isDigit = true) := by
  obtain ⟨k, hk⟩ := Option.isSome_iff_exists.mp hfd
  obtain ⟨a, m, k', hm, hshape, hval⟩ := floatStrNN_shape q hq k hk
  have hd1 := parseDecimal_digits 1 (natDigits a) m k' (natDigits_all_digit a)
    (natDigits_ne_nil a) hm
  have hd2 := parseDecimal_digits (-1) (natDigits a) m k' (natDigits_all_digit a)
    (natDigits_ne_nil a) hm
  rw [digitsVal_natDigits] at hd1 hd2
  have hcast : ((a * 10 ^ k' + m : Nat) : Int) = (a : Int) * 10 ^ k' + (m : Int) := by
    push_cast
    ring
  refine ⟨?_, ?_, ?_, ?_⟩
  · rw [hshape, hd1]
    rw [show (1 : Int) * ((a : Int) * 10 ^ k' + (m : Int))
      = ((a * 10 ^ k' + m : Nat) : Int) from by push_cast; ring]
    rw [hval]
  · rw [hshape, hd2]
    rw [show (-1 : Int) * ((a : Int) * 10 ^ k' + (m : Int))
      = -((a * 10 ^ k' + m : Nat) : Int) from by push_cast; ring]
    rw [mkRat_neg, hval]
  · rw [hshape]
    intro c hc
    rcases List.mem_append.mp hc with h | h
    · have := natDigits_no_ws a
      rw [List.all_eq_true] at this
      simpa using this c h
    · rcases List.mem_cons.mp h with h2 | h2
      · subst h2; decide
      · have := (fracDigits_spec k' m hm).2.2.1
        rw [List.all_eq_true] at this
        simpa using this c h2
  · rw [hshape]
    obtain ⟨c, t, hct⟩ : ∃ c t, natDigits a = c :: t := by
      cases h : natDigits a with
      | nil => exact absurd h (natDigits_ne_nil a)
      | cons c t => exact ⟨c, t, rfl⟩
    refine ⟨c, t ++ '.' :: fracDigits m k', by rw [hct]; rfl, ?_⟩
    have := natDigits_all_digit a
    rw [hct, List.all_cons, Bool.and_eq_true] at this
    exact this.1

theorem pyFloat_floatStr (q : Rat) (hfd : hasFiniteDec q = true) :
    pyFloat (floatStr q) = some q := by
  unfold floatStr
  by_cases hneg : q < 0
  · rw [if_pos hneg]
    have hfd2 : hasFiniteDec (-q) = true := by
      unfold hasFiniteDec decExp? at hfd ⊢
      rw [Rat.neg_den]
      exact hfd
    have hq2 : 0 ≤ -q := by linarith
    obtain ⟨_, hp2, hws, _⟩ := floatStrNN_facts (-q) hq2 hfd2
    unfold pyFloat
    have hstrip : pyStrip ⟨'-' :: (floatStrNN (-q)).toList⟩
        = ⟨'-' :: (floatStrNN (-q)).toList⟩ := by
      apply pyStrip_no_ws
      intro c hc
      rcases List.mem_cons.mp hc with h | h
      · subst h; decide
      · exact hws c h
    rw [show pyStrip ("-" ++ floatStrNN (-q)) = pyStrip ⟨'-' :: (floatStrNN (-q)).toList⟩ from rfl]
    rw [hstrip]
    show pyFloatList ('-' :: (floatStrNN (-q)).toList) = some q
    rw [show pyFloatList ('-' :: (floatStrNN (-q)).toList)
      = parseDecimal (-1) (floatStrNN (-q)).toList from rfl]
    rw [hp2, neg_neg]
  · rw [if_neg hneg]
    have hq : 0 ≤ q := le_of_not_lt hneg
    obtain ⟨hp1, _, hws, c, rest, hcr, hcd⟩ := floatStrNN_facts q hq hfd
    unfold pyFloat
    have hstrip : pyStrip ⟨(floatStrNN q).toList⟩ = ⟨(floatStrNN q).toList⟩ :=
      pyStrip_no_ws hws
    rw [show pyStrip (floatStrNN q) = pyStrip ⟨(floatStrNN q).toList⟩ from rfl]
    rw [hstrip]
    show pyFloatList (floatStrNN q).toList = some q
    rw [hcr]
    obtain ⟨hmn, hpl, _, _⟩ := isDigit_not_special c hcd
    rw [show pyFloatList (c :: rest)
      = (if c = '-' then parseDecimal (-1) rest
        else if c = '+' then parseDecimal 1 rest
        else parseDecimal 1 (c :: rest)) from rfl]
    rw [if_neg hmn, if_neg hpl, ← hcr]
    exact hp1

theorem parse_row_to_row (s : Student) (hfd : hasFiniteDec s.gpa = true) :
    parse_row (to_row s) = some s := by
  show student_init (some s.id) (some s.name) (some (intStr s.age)) (some s.grade)
    (some (floatStr s.gpa)) = some s
  show some (⟨s.id, s.name, (pyInt (intStr s.age)).getD 0, s.grade,
    (pyFloat (floatStr s.gpa)).getD 0⟩ : Student) = some s
  rw [pyInt_intStr, pyFloat_floatStr s.gpa hfd]
  rfl

/-! ### The claims -/

/-- Claim C1, counterexample: the id-uniqueness invariant does not hold for
every reachable collection.  `load_students` does not enforce uniqueness: a
backing file whose two data rows both carry id `1001` loads into a
collection with a duplicated id. -/
theorem c1_load_duplicate_ids_counterexample :
    ((load_students [["1001", "Ann", "20", "10th", "3.0"],
                     ["1001", "Bob", "21", "11th", "3.5"]]).map Student.id)
      = ["1001", "1001"] ∧
    ¬ ((load_students [["1001", "Ann", "20", "10th", "3.0"],
                       ["1001", "Bob", "21", "11th", "3.5"]]).map Student.id).Nodup := by
  constructor
  · decide
  · decide

/-- Claim C1 (amended): id uniqueness holds conditionally.  If the backing
file's rows carry pairwise-distinct id fields then the loaded collection has
pairwise-distinct ids; and every operation preserves distinctness of ids:
`add_new_student` (the allocated id is fresh), and every terminating run of
`update_and_delete` (delete removes a record, update never changes an id).
`load_students` itself does not enforce the invariant (see the
counterexample). -/
theorem c1_id_uniqueness :
    (∀ rows : List (List String), (rows.filterMap (fun r => r.get? 0)).Nodup →
      ((load_students rows).map Student.id).Nodup) ∧
    (∀ (students : List Student) (nameI : String) (ageRs : List String)
        (gradeI : String) (gpaRs : List String) (out : List Student),
      (students.map Student.id).Nodup →
      add_new_student students nameI ageRs gradeI gpaRs = some out →
      (out.map Student.id).Nodup) ∧
    (∀ (students : List Student) (sidI actionI nameR : String) (ageRs : List String)
        (gradeR : String) (gpaRs : List String) (tag : UDTag) (out : List Student),
      (students.map Student.id).Nodup →
      update_and_delete students sidI actionI nameR ageRs gradeR gpaRs = some (tag, out) →
      (out.map Student.id).Nodup) := by
  refine ⟨?_, ?_, ?_⟩
  · intro rows h
    exact List.Nodup.sublist (load_ids_sublist rows) h
  · intro students nameI ageRs gradeI gpaRs out hnd heq
    simp only [add_new_student] at heq
    by_cases hname : pyStrip nameI = ""
    · rw [if_pos hname] at heq
      injection heq with h2
      rw [← h2]
      exact hnd
    · rw [if_neg hname] at heq
      cases hA : age_loop_add ageRs with
      | none =>
        rw [hA] at heq
        exact absurd heq (by simp)
      | some age =>
        rw [hA] at heq
        have heq2 : (match gpa_loop_add gpaRs with
          | none => none
          | some gpa => some (students ++
              [(⟨next_id_str students, pyStrip nameI, age, pyStrip gradeI, gpa⟩
                : Student)])) = some out := heq
        cases hG : gpa_loop_add gpaRs with
        | none =>
          rw [hG] at heq2
          exact absurd heq2 (by simp)
        | some gpa =>
          rw [hG] at heq2
          injection heq2 with h2
          rw [← h2, List.map_append]
          rw [List.nodup_append]
          refine ⟨hnd, List.nodup_singleton _, ?_⟩
          intro x hx hx2
          rw [List.map_singleton, List.mem_singleton] at hx2
          subst hx2
          exact next_id_fresh students hx
  · intro students sidI actionI nameR ageRs gradeR gpaRs tag out hnd heq
    simp only [update_and_delete] at heq
    cases hfind : find_student (pyStrip sidI) students with
    | none =>
      rw [hfind] at heq
      injection heq with h2
      injection h2 with _ h4
      rw [← h4]
      exact hnd
    | some t =>
      rw [hfind] at heq
      have heq2 : (if pyUpper (pyStrip actionI) = "D" then
          some (UDTag.deleted, remove_student t students)
        else if pyUpper (pyStrip actionI) = "U" then
          match apply_update t nameR ageRs gradeR gpaRs with
          | none => none
          | some t2 => some (UDTag.updated, set_first_student (pyStrip sidI) t2 students)
        else some (UDTag.invalidAction, students)) = some (tag, out) := heq
      by_cases hD : pyUpper (pyStrip actionI) = "D"
      · rw [if_pos hD] at heq2
        injection heq2 with h2
        injection h2 with _ h4
        rw [← h4]
        exact List.Nodup.sublist
          (List.Sublist.map Student.id (remove_student_sublist t students)) hnd
      · rw [if_neg hD] at heq2
        by_cases hU : pyUpper (pyStrip actionI) = "U"
        · rw [if_pos hU] at heq2
          cases hA : apply_update t nameR ageRs gradeR gpaRs with
          | none =>
            rw [hA] at heq2
            exact absurd heq2 (by simp)
          | some t2 =>
            rw [hA] at heq2
            injection heq2 with h2
            injection h2 with _ h4
            rw [← h4]
            have hid2 : t2.id = pyStrip sidI := by
              rw [apply_update_id t nameR ageRs gradeR gpaRs t2 hA]
              obtain ⟨l1, l2, _, hid, _⟩ :=
                find_student_some (pyStrip sidI) students t hfind
              exact hid
            rw [set_first_student_map_id (pyStrip sidI) t2 hid2 students]
            exact hnd
        · rw [if_neg hU] at heq2
          injection heq2 with h2
          injection h2 with _ h4
          rw [← h4]
          exact hnd

theorem c1_id_uniqueness_witness :
    (([⟨"1001", "Ann", 20, "10th", mkRat 3 1⟩,
       ⟨"1002", "Bob", 21, "11th", mkRat 7 2⟩] : List Student).map Student.id).Nodup :=
  c1_id_uniqueness.2.1 [⟨"1001", "Ann", 20, "10th", mkRat 3 1⟩] "Bob" ["21"] "11th" ["3.5"]
    [⟨"1001", "Ann", 20, "10th", mkRat 3 1⟩, ⟨"1002", "Bob", 21, "11th", mkRat 7 2⟩]
    (by decide) (by decide)

/-- Claim C2, counterexample: on a non-empty collection whose sole id parses
to the integer `-5`, `get_next_id` returns `1` (the running maximum starts
at `0`), not `-5 + 1 = -4` as the claim's "maximum over all
integer-parseable ids plus one" would require. -/
theorem c2_negative_ids_counterexample :
    ([(⟨"-5", "Neg", 1, "g", mkRat 0 1⟩ : Student)].map (fun s => pyInt s.id))
      = [some (-5)] ∧
    get_next_id [⟨"-5", "Neg", 1, "g", mkRat 0 1⟩] = 1 ∧
    (1 : Int) ≠ -5 + 1 := by decide

/-- Claim C2 (amended): `get_next_id` returns `1001` on an empty collection;
on a non-empty collection it returns `max_id + 1` where `max_id` is the
maximum of `0` and all integer-parseable ids (non-parseable ids are ignored,
and parseable ids never raise the maximum above `0` unless positive):
`max_id` is nonnegative, bounds every parseable id, and is `0` or attained
by some record.  On ids `{1001, 1002, 1050}` the result is `1051`, and the
id string handed to `add_new_student` is `"1051"`. -/
theorem c2_next_id_spec :
    get_next_id [] = 1001 ∧
    (∀ students : List Student, students ≠ [] →
      get_next_id students = max_id students + 1) ∧
    (∀ students : List Student,
      0 ≤ max_id students ∧
      (∀ s ∈ students, ∀ j : Int, pyInt s.id = some j → j ≤ max_id students) ∧
      (max_id students = 0 ∨ ∃ s ∈ students, pyInt s.id = some (max_id students))) ∧
    get_next_id [⟨"1001", "A", 1, "g", mkRat 3 1⟩, ⟨"1002", "B", 1, "g", mkRat 3 1⟩,
      ⟨"1050", "C", 1, "g", mkRat 3 1⟩] = 1051 ∧
    next_id_str [⟨"1001", "A", 1, "g", mkRat 3 1⟩, ⟨"1002", "B", 1, "g", mkRat 3 1⟩,
      ⟨"1050", "C", 1, "g", mkRat 3 1⟩] = "1051" ∧
    next_id_str [] = "1001" := by
  refine ⟨by decide, ?_, ?_, by decide, by decide, by decide⟩
  · intro students hne
    unfold get_next_id
    rw [if_neg hne]
  · intro students
    exact ⟨max_id_nonneg students, fun s hs j hj => max_id_bound students s hs j hj,
      max_id_cases students⟩

theorem c2_next_id_spec_witness :
    get_next_id [⟨"abc", "A", 1, "g", mkRat 3 1⟩]
      = max_id [⟨"abc", "A", 1, "g", mkRat 3 1⟩] + 1 :=
  c2_next_id_spec.2.1 [⟨"abc", "A", 1, "g", mkRat 3 1⟩] (by decide)

/-- Claim C3: loading is total (the embedding is a total function, modelling
that `load_students` never raises past its boundary).  A structurally
complete row (at least the five fields) always produces a record, with an
unparseable Age defaulting to `0` and an unparseable GPA defaulting to
`0.0`; a row missing any required field is skipped entirely (`none`); the
loaded collection consists of exactly the per-row results. -/
theorem c3_load_row_behavior :
    (∀ (f0 f1 f2 f3 f4 : String) (rest : List String),
      parse_row (f0 :: f1 :: f2 :: f3 :: f4 :: rest)
        = some { id := f0, name := f1, age := (pyInt f2).getD 0, grade := f3,
                 gpa := (pyFloat f4).getD 0 }) ∧
    (∀ row : List String, row.length < 5 → parse_row row = none) ∧
    (∀ rows : List (List String), load_students rows = rows.filterMap parse_row) := by
  refine ⟨?_, ?_, fun rows => rfl⟩
  · intro f0 f1 f2 f3 f4 rest
    rfl
  · intro row hlen
    unfold parse_row student_init
    have h4 : row.get? 4 = none := List.get?_eq_none.mpr (by omega)
    rw [h4]
    cases row.get? 2 <;> rfl

theorem c3_load_row_behavior_witness :
    parse_row ["1001", "Ann", "abc", "10th", "xyz"]
      = some { id := "1001", name := "Ann", age := 0, grade := "10th", gpa := mkRat 0 1 } ∧
    parse_row ["1001", "Ann"] = none := by
  constructor
  · have h := c3_load_row_behavior.1 "1001" "Ann" "abc" "10th" "xyz" []
    rw [h]
    decide
  · exact c3_load_row_behavior.2.1 ["1001", "Ann"] (by decide)

/-- Claim C4, counterexample: out-of-range numeric values are not normalized
to `0` / `0.0` by the storage round trip.  A record built from the
structurally complete row `["7", "Bob", "-3", "g", "9.9"]` carries the
out-of-range age `-3` and gpa `9.9`, and serializing and reparsing it
preserves them unchanged. -/
theorem c4_out_of_range_counterexample :
    parse_row ["7", "Bob", "-3", "g", "9.9"]
      = some ⟨"7", "Bob", -3, "g", mkRat 99 10⟩ ∧
    (parse_row (to_row ⟨"7", "Bob", -3, "g", mkRat 99 10⟩)).map Student.gpa
      = some (mkRat 99 10) ∧
    (parse_row (to_row ⟨"7", "Bob", -3, "g", mkRat 99 10⟩)).map Student.age
      = some (-3) ∧
    ¬ (mkRat 99 10 ≤ 4) ∧ mkRat 99 10 ≠ 0 ∧ (-3 : Int) ≠ 0 := by decide

/-- Claim C4 (amended): for every record whose gpa is a representable float
value (finite decimal expansion), serializing via `to_dict`/`save_students`
and reparsing via `load_students`/`Student.__init__` yields the same record
field by field; unparseable numeric inputs are normalized to `0` / `0.0`
already at construction (and then round-trip as those values).  Out-of-range
values are preserved, not normalized (see the counterexample). -/
theorem c4_storage_round_trip :
    (∀ s : Student, hasFiniteDec s.gpa = true → parse_row (to_row s) = some s) ∧
    (∀ sid nm ag gr gp : String, pyInt ag = none → pyFloat gp = none →
      student_init (some sid) (some nm) (some ag) (some gr) (some gp)
        = some { id := sid, name := nm, age := 0, grade := gr, gpa := 0 }) := by
  constructor
  · intro s hfd
    exact parse_row_to_row s hfd
  · intro sid nm ag gr gp hag hgp
    show some (⟨sid, nm, (pyInt ag).getD 0, gr, (pyFloat gp).getD 0⟩ : Student)
      = some (⟨sid, nm, 0, gr, 0⟩ : Student)
    rw [hag, hgp]
    rfl

theorem c4_storage_round_trip_witness :
    parse_row (to_row ⟨"1001", "Alice", 20, "10th", mkRat 7 2⟩)
      = some ⟨"1001", "Alice", 20, "10th", mkRat 7 2⟩ :=
  c4_storage_round_trip.1 ⟨"1001", "Alice", 20, "10th", mkRat 7 2⟩ (by decide)

/-- Claim C5: for every collection and raw query response, `students_search`
with an empty stripped query performs no search and prints nothing; with a
non-empty query it selects exactly the records for which the lower-cased
query is a substring of the lower-cased id or name, in original collection
order (a sublist of the collection), reporting not-found when no record
matches and the match list otherwise. -/
theorem c5_search_spec : ∀ (students : List Student) (input : String),
    (pyStrip input = "" → students_search students input = SearchResult.noQuery) ∧
    (pyStrip input ≠ "" →
      (students.filter (matchesQuery (pyStrip input))).Sublist students ∧
      (∀ s : Student, s ∈ students.filter (matchesQuery (pyStrip input)) ↔
        s ∈ students ∧
          ((pyLower (pyStrip input)).toList <:+: (pyLower s.id).toList ∨
           (pyLower (pyStrip input)).toList <:+: (pyLower s.name).toList)) ∧
      (students.filter (matchesQuery (pyStrip input)) = [] →
        students_search students input = SearchResult.noneFound (pyStrip input)) ∧
      (students.filter (matchesQuery (pyStrip input)) ≠ [] →
        students_search students input
          = SearchResult.found (students.filter (matchesQuery (pyStrip input))))) := by
  intro students input
  constructor
  · intro hq
    simp only [students_search]
    rw [if_pos hq]
  · intro hq
    refine ⟨List.filter_sublist students, ?_, ?_, ?_⟩
    · intro s
      rw [List.mem_filter]
      constructor
      · rintro ⟨hmem, hb⟩
        refine ⟨hmem, ?_⟩
        unfold matchesQuery at hb
        rw [Bool.or_eq_true, strFind_iff, strFind_iff] at hb
        exact hb
      · rintro ⟨hmem, hb⟩
        refine ⟨hmem, ?_⟩
        unfold matchesQuery
        rw [Bool.or_eq_true, strFind_iff, strFind_iff]
        exact hb
    · intro hnil
      simp only [students_search]
      rw [if_neg hq, if_pos hnil]
    · intro hnil
      simp only [students_search]
      rw [if_neg hq, if_neg hnil]

theorem c5_search_spec_witness :
    students_search [⟨"1001", "Alice", 20, "10th", mkRat 3 1⟩,
                     ⟨"1002", "Bob", 21, "11th", mkRat 7 2⟩] " AL "
      = SearchResult.found [⟨"1001", "Alice", 20, "10th", mkRat 3 1⟩] :=
  ((c5_search_spec [⟨"1001", "Alice", 20, "10th", mkRat 3 1⟩,
      ⟨"1002", "Bob", 21, "11th", mkRat 7 2⟩] " AL ").2 (by decide)).2.2.2 (by decide)

/-- Claim C6: in `update_and_delete` the target is the first record whose id
equals the stripped entered id, compared exactly and case-sensitively.  When
no record matches, the collection is returned unchanged with a not-found
report.  When a record matches and the action is `D`, exactly that first
matching record is removed: the collection decomposes as `l1 ++ t :: l2`
with no id-match in `l1`, the result is `l1 ++ l2`, and the length drops by
one. -/
theorem c6_delete_spec : ∀ (students : List Student) (sidI actionI nameR : String)
    (ageRs : List String) (gradeR : String) (gpaRs : List String),
    ((∀ s ∈ students, s.id ≠ pyStrip sidI) →
      update_and_delete students sidI actionI nameR ageRs gradeR gpaRs
        = some (UDTag.notFound, students)) ∧
    ((∃ s ∈ students, s.id = pyStrip sidI) → pyUpper (pyStrip actionI) = "D" →
      ∃ l1 t l2, students = l1 ++ t :: l2 ∧ t.id = pyStrip sidI ∧
        (∀ y ∈ l1, y.id ≠ pyStrip sidI) ∧
        update_and_delete students sidI actionI nameR ageRs gradeR gpaRs
          = some (UDTag.deleted, l1 ++ l2) ∧
        (l1 ++ l2).length + 1 = students.length) := by
  intro students sidI actionI nameR ageRs gradeR gpaRs
  constructor
  · intro hnone
    simp only [update_and_delete]
    rw [(find_student_none (pyStrip sidI) students).mpr hnone]
  · intro hex hD
    cases hfind : find_student (pyStrip sidI) students with
    | none =>
      rw [find_student_none] at hfind
      obtain ⟨s, hs, hid⟩ := hex
      exact absurd hid (hfind s hs)
    | some t =>
      obtain ⟨l1, l2, heq, hid, hfirst⟩ := find_student_some (pyStrip sidI) students t hfind
      refine ⟨l1, t, l2, heq, hid, hfirst, ?_, ?_⟩
      · simp only [update_and_delete]
        rw [hfind]
        show (if pyUpper (pyStrip actionI) = "D" then
            some (UDTag.deleted, remove_student t students)
          else if pyUpper (pyStrip actionI) = "U" then
            match apply_update t nameR ageRs gradeR gpaRs with
            | none => none
            | some t2 => some (UDTag.updated, set_first_student (pyStrip sidI) t2 students)
          else some (UDTag.invalidAction, students)) = some (UDTag.deleted, l1 ++ l2)
        rw [if_pos hD]
        have hrm : remove_student t students = l1 ++ l2 := by
          rw [heq]
          apply remove_student_found
          intro y hy hy2
          exact hfirst y hy (by rw [hy2]; exact hid)
        rw [hrm]
      · rw [heq]
        simp [List.length_append]
        omega

theorem c6_delete_spec_witness :
    ∃ l1 t l2,
      ([⟨"1001", "Ann", 20, "10th", mkRat 3 1⟩, ⟨"1002", "Bob", 21, "11th", mkRat 7 2⟩]
        : List Student) = l1 ++ t :: l2 ∧
      t.id = pyStrip " 1002 " ∧ (∀ y ∈ l1, y.id ≠ pyStrip " 1002 ") ∧
      update_and_delete [⟨"1001", "Ann", 20, "10th", mkRat 3 1⟩,
        ⟨"1002", "Bob", 21, "11th", mkRat 7 2⟩] " 1002 " "d" "" [] "" []
        = some (UDTag.deleted, l1 ++ l2) ∧
      (l1 ++ l2).length + 1
        = ([⟨"1001", "Ann", 20, "10th", mkRat 3 1⟩,
            ⟨"1002", "Bob", 21, "11th", mkRat 7 2⟩] : List Student).length :=
  (c6_delete_spec [⟨"1001", "Ann", 20, "10th", mkRat 3 1⟩,
    ⟨"1002", "Bob", 21, "11th", mkRat 7 2⟩] " 1002 " "d" "" [] "" []).2
    (by decide) (by decide)

/-- Claim C7: `calculate_avg_and_topper` is a no-op (just a message) on an
empty collection; on a non-empty collection it reports the record count, the
arithmetic mean of the gpa values (their sum divided by the count), and as
topper the first record of maximum gpa: the collection splits as
`l1 ++ topper :: l2` with all of `l1` strictly below the topper's gpa and
every record at most it.  On gpas `{3.0, 4.0, 2.0}` the mean is `3` and the
topper is the gpa-4.0 record. -/
theorem c7_avg_topper_spec :
    calculate_avg_and_topper [] = none ∧
    (∀ (s0 : Student) (rest : List Student),
      ∃ l1 l2,
        calculate_avg_and_topper (s0 :: rest)
          = some ((s0 :: rest).length,
              total_gpa (s0 :: rest) / (((s0 :: rest).length : Nat) : Rat),
              find_topper s0 rest) ∧
        s0 :: rest = l1 ++ find_topper s0 rest :: l2 ∧
        (∀ y ∈ l1, y.gpa < (find_topper s0 rest).gpa) ∧
        (∀ x ∈ s0 :: rest, x.gpa ≤ (find_topper s0 rest).gpa)) ∧
    calculate_avg_and_topper [⟨"1", "A", 1, "g", 3⟩, ⟨"2", "B", 1, "g", 4⟩,
        ⟨"3", "C", 1, "g", 2⟩]
      = some (3, 3, ⟨"2", "B", 1, "g", 4⟩) := by
  refine ⟨rfl, ?_, ?_⟩
  · intro s0 rest
    obtain ⟨l1, l2, heq, hlt, hle⟩ := find_topper_spec rest s0
    exact ⟨l1, l2, rfl, heq, hlt, hle⟩
  · have h2 : find_topper (⟨"1", "A", 1, "g", 3⟩ : Student)
        [⟨"2", "B", 1, "g", 4⟩, ⟨"3", "C", 1, "g", 2⟩] = ⟨"2", "B", 1, "g", 4⟩ := by
      decide
    have h1 : total_gpa [(⟨"1", "A", 1, "g", 3⟩ : Student), ⟨"2", "B", 1, "g", 4⟩,
        ⟨"3", "C", 1, "g", 2⟩] = 9 := by
      unfold total_gpa
      norm_num
    show some ((3 : Nat),
        total_gpa [(⟨"1", "A", 1, "g", 3⟩ : Student), ⟨"2", "B", 1, "g", 4⟩,
          ⟨"3", "C", 1, "g", 2⟩] / ((3 : Nat) : Rat),
        find_topper (⟨"1", "A", 1, "g", 3⟩ : Student)
          [⟨"2", "B", 1, "g", 4⟩, ⟨"3", "C", 1, "g", 2⟩])
      = some (3, 3, ⟨"2", "B", 1, "g", 4⟩)
    rw [h1, h2]
    simp only [Option.some.injEq, Prod.mk.injEq]
    refine ⟨trivial, ?_, trivial⟩
    norm_num

theorem c7_avg_topper_spec_witness :
    ∃ l1 l2,
      calculate_avg_and_topper [⟨"1", "A", 1, "g", (3 : Rat)⟩, ⟨"2", "B", 1, "g", 4⟩]
        = some (([(⟨"1", "A", 1, "g", (3 : Rat)⟩ : Student), ⟨"2", "B", 1, "g", 4⟩].length),
            total_gpa [⟨"1", "A", 1, "g", (3 : Rat)⟩, ⟨"2", "B", 1, "g", 4⟩]
              / ((([(⟨"1", "A", 1, "g", (3 : Rat)⟩ : Student),
                  ⟨"2", "B", 1, "g", 4⟩].length) : Nat) : Rat),
            find_topper ⟨"1", "A", 1, "g", (3 : Rat)⟩ [⟨"2", "B", 1, "g", 4⟩]) ∧
      ([(⟨"1", "A", 1, "g", (3 : Rat)⟩ : Student), ⟨"2", "B", 1, "g", 4⟩]
        = l1 ++ find_topper ⟨"1", "A", 1, "g", (3 : Rat)⟩ [⟨"2", "B", 1, "g", 4⟩] :: l2) ∧
      (∀ y ∈ l1, y.gpa < (find_topper ⟨"1", "A", 1, "g", (3 : Rat)⟩
        [⟨"2", "B", 1, "g", 4⟩]).gpa) ∧
      (∀ x ∈ [(⟨"1", "A", 1, "g", (3 : Rat)⟩ : Student), ⟨"2", "B", 1, "g", 4⟩],
        x.gpa ≤ (find_topper ⟨"1", "A", 1, "g", (3 : Rat)⟩ [⟨"2", "B", 1, "g", 4⟩]).gpa) :=
  c7_avg_topper_spec.2.1 ⟨"1", "A", 1, "g", (3 : Rat)⟩ [⟨"2", "B", 1, "g", 4⟩]

theorem age_loop_upd_empty (old : Int) (r : String) (h : pyStrip r = "") :
    age_loop_upd old [r] = some old := by
  simp only [age_loop_upd]
  rw [if_pos h]

theorem gpa_loop_upd_empty (old : Rat) (r : String) (h : pyStrip r = "") :
    gpa_loop_upd old [r] = some old := by
  simp only [gpa_loop_upd]
  rw [if_pos h]

/-- Claim C8: updating a found record with all-empty sub-prompt responses
leaves every field unchanged and the collection (membership and order)
literally equal to what it was. -/
theorem c8_update_all_empty_noop : ∀ (students : List Student) (sidI actionI : String)
    (t : Student) (nameR a gradeR g : String),
    find_student (pyStrip sidI) students = some t →
    pyUpper (pyStrip actionI) = "U" →
    pyStrip nameR = "" → pyStrip a = "" → pyStrip gradeR = "" → pyStrip g = "" →
    update_and_delete students sidI actionI nameR [a] gradeR [g]
      = some (UDTag.updated, students) := by
  intro students sidI actionI t nameR a gradeR g hfind hU hn ha hg hgp
  have hau : apply_update t nameR [a] gradeR [g] = some t := by
    have h1 : upd_name t nameR = t := by
      unfold upd_name
      rw [if_pos hn]
    simp only [apply_update, h1, age_loop_upd_empty t.age a ha]
    have h2 : set_age t t.age = t := rfl
    have h3 : upd_grade t gradeR = t := by
      unfold upd_grade
      rw [if_pos hg]
    simp only [h2, h3, gpa_loop_upd_empty t.gpa g hgp]
    show some (set_gpa t t.gpa) = some t
    rw [show set_gpa t t.gpa = t from rfl]
  simp only [update_and_delete]
  rw [hfind]
  show (if pyUpper (pyStrip actionI) = "D" then
      some (UDTag.deleted, remove_student t students)
    else if pyUpper (pyStrip actionI) = "U" then
      match apply_update t nameR [a] gradeR [g] with
      | none => none
      | some t2 => some (UDTag.updated, set_first_student (pyStrip sidI) t2 students)
    else some (UDTag.invalidAction, students)) = some (UDTag.updated, students)
  rw [if_neg (by rw [hU]; decide), if_pos hU, hau]
  show some (UDTag.updated, set_first_student (pyStrip sidI) t students)
    = some (UDTag.updated, students)
  rw [set_first_student_self (pyStrip sidI) students t hfind]

theorem c8_update_all_empty_noop_witness :
    update_and_delete [⟨"1001", "Ann", 20, "10th", mkRat 3 1⟩] "1001" " u " "" [""] "" [""]
      = some (UDTag.updated, [⟨"1001", "Ann", 20, "10th", mkRat 3 1⟩]) :=
  c8_update_all_empty_noop [⟨"1001", "Ann", 20, "10th", mkRat 3 1⟩] "1001" " u "
    ⟨"1001", "Ann", 20, "10th", mkRat 3 1⟩ "" "" "" "" (by decide) (by decide)
    (by decide) (by decide) (by decide) (by decide)

/-- Claim C9: when a record is found but the trimmed, upper-cased action
token is neither `D` nor `U`, `update_and_delete` ends with the
invalid-action report and the collection is returned unchanged. -/
theorem c9_invalid_action_noop : ∀ (students : List Student)
    (sidI actionI nameR : String) (ageRs : List String) (gradeR : String)
    (gpaRs : List String) (t : Student),
    find_student (pyStrip sidI) students = some t →
    pyUpper (pyStrip actionI) ≠ "D" → pyUpper (pyStrip actionI) ≠ "U" →
    update_and_delete students sidI actionI nameR ageRs gradeR gpaRs
      = some (UDTag.invalidAction, students) := by
  intro students sidI actionI nameR ageRs gradeR gpaRs t hfind hD hU
  simp only [update_and_delete]
  rw [hfind]
  show (if pyUpper (pyStrip actionI) = "D" then
      some (UDTag.deleted, remove_student t students)
    else if pyUpper (pyStrip actionI) = "U" then
      match apply_update t nameR ageRs gradeR gpaRs with
      | none => none
      | some t2 => some (UDTag.updated, set_first_student (pyStrip sidI) t2 students)
    else some (UDTag.invalidAction, students)) = some (UDTag.invalidAction, students)
  rw [if_neg hD, if_neg hU]

theorem c9_invalid_action_noop_witness :
    update_and_delete [⟨"1001", "Ann", 20, "10th", mkRat 3 1⟩] "1001" " x " "" [] "" []
      = some (UDTag.invalidAction, [⟨"1001", "Ann", 20, "10th", mkRat 3 1⟩]) :=
  c9_invalid_action_noop [⟨"1001", "Ann", 20, "10th", mkRat 3 1⟩] "1001" " x " "" [] "" []
    ⟨"1001", "Ann", 20, "10th", mkRat 3 1⟩ (by decide) (by decide) (by decide)

/-- Claim C10 (implicit behavior): on a non-empty collection in which no id
parses as an integer, `get_next_id` returns `1` (the running maximum starts
at `0` and is never raised), so the next added student would receive id
`"1"`, not the `1001` floor, which applies only to an empty collection. -/
theorem c10_next_id_no_parseable : ∀ students : List Student, students ≠ [] →
    (∀ s ∈ students, pyInt s.id = none) →
    get_next_id students = 1 ∧ next_id_str students = "1" := by
  intro students hne hall
  have h1 : get_next_id students = 1 := by
    unfold get_next_id
    rw [if_neg hne]
    unfold max_id
    rw [foldl_max_id_none students hall 0]
    decide
  refine ⟨h1, ?_⟩
  unfold next_id_str
  rw [h1]
  decide

theorem c10_next_id_no_parseable_witness :
    get_next_id [⟨"abc", "A", 1, "g", mkRat 3 1⟩] = 1 ∧
    next_id_str [⟨"abc", "A", 1, "g", mkRat 3 1⟩] = "1" :=
  c10_next_id_no_parseable [⟨"abc", "A", 1, "g", mkRat 3 1⟩] (by decide) (by decide)
